import Mathlib

/-!
Verification of the field-to-term resolution algorithm of the
lexicons.bio repository (`scripts/dwc_crossref.py` and the resolution
helper of `scripts/generate_dwc_html.py`).

The embedding models Python dicts as association lists (`alookup` is the
first-match lookup, `aupdate` is dict assignment: update-in-place or
append), Python sets of strings as lists queried by membership, and the
nested resolution loops as folds over the flattened list of loop
iterations in the same order.
-/

/-- A Darwin Core vocabulary term, as built by `load_dwc_terms`:
name, label, definition, term IRI and the semantic class extracted
from `organized_in` (`class` is a Lean keyword, so the field is `cls`). -/
structure Term where
  name : String
  label : String
  definition : String
  term_iri : String
  cls : String
deriving DecidableEq, Repr

/-- First-match lookup in an association list: the model of `d[k]` /
`d.get(k)` on a Python dict (keys are unique in a real dict, so
first match is the only match). -/
def alookup {α : Type} (l : List (String × α)) (k : String) : Option α :=
  match l with
  | [] => none
  | (k', v) :: rest => if k' = k then some v else alookup rest k

/-- Lookup with a default: the model of `d.get(k, dflt)`. -/
def agetD {α : Type} (l : List (String × α)) (k : String) (dflt : α) : α :=
  match alookup l k with
  | some v => v
  | none => dflt

/-- Dict assignment `d[k] = v`: overwrite the binding in place when the
key is present, append otherwise. -/
def aupdate {α : Type} (l : List (String × α)) (k : String) (v : α) :
    List (String × α) :=
  match l with
  | [] => [(k, v)]
  | (k', v') :: rest =>
    if k' = k then (k, v) :: rest else (k', v') :: aupdate rest k v

/-- `listLeadsWith n h` is true when the char list `n` is an initial
segment of `h`. -/
def listLeadsWith : List Char → List Char → Bool
  | [], _ => true
  | _ :: _, [] => false
  | a :: as, b :: bs => a == b && listLeadsWith as bs

/-- Helper for the substring test: does `needle` start at some position
of the char list? -/
def strContainsAux (needle : List Char) : List Char → Bool
  | [] => needle.isEmpty
  | c :: cs => listLeadsWith needle (c :: cs) || strContainsAux needle cs

/-- The Python substring test `needle in hay` on strings. -/
def strContains (hay needle : String) : Bool :=
  strContainsAux needle.data hay.data

/-- Lexicographic comparison of char lists by code point, as Python
compares strings. -/
def charLe : List Char → List Char → Bool
  | [], _ => true
  | _ :: _, [] => false
  | a :: as, b :: bs => if a < b then true else if b < a then false else charLe as bs

/-- String comparison used by `sorted(...)`. -/
def strLe (s t : String) : Bool := charLe s.data t.data

/-- Insert a string into an already sorted list. -/
def insertSorted (s : String) : List String → List String
  | [] => [s]
  | t :: ts => if strLe s t then s :: t :: ts else t :: insertSorted s ts

/-- Sort a list of strings: the model of Python `sorted(...)`. -/
def sortFields (l : List String) : List String := l.foldr insertSorted []

/-- The per-file schema data the resolver consumes: for each lexicon
file, its path (relative to the repo root) and, per def name, the list
of field names — the shape returned by `load_lexicon_fields` for every
file found by `find_lexicons`. -/
abbrev LexFields : Type := List (String × List (String × List String))

/-- `build_field_set` flattens every field name of every def of every
file; the set it builds is modelled as the sorted duplicate-free list
that `sorted(all_fields)` then iterates. -/
def collectFields (lexFields : LexFields) : List String :=
  lexFields.flatMap (fun pd => pd.2.flatMap (fun df => df.2))

/-- The iteration order of the classification loop:
`sorted(build_field_set(...))`. -/
def build_field_set (lexFields : LexFields) : List String :=
  sortFields (collectFields lexFields).dedup

/-- The rule configuration of the resolver, made explicit: the
infrastructure set `ATPROTO_FIELDS`, the contextual table
`CONTEXTUAL_MAPPINGS` (field name to a list of
(lexicon-path-substring, term-name) pairs) and the manual rename table
`FIELD_TO_DWC`. -/
structure Rules where
  atproto : List String
  contextual : List (String × List (String × String))
  manual : List (String × String)
deriving DecidableEq, Repr

/-- The writes performed by the contextual-resolution loop nest of
`main`, flattened to a list in iteration order: for each contextual
rule, each lexicon file, each (substring, term-name) entry whose
substring occurs in the file path, and each def of that file that
contains the field, a write of `(field, dwc_terms[term_name])` is
performed when the term name exists. -/
def ctxWrites (ctx : List (String × List (String × String)))
    (lexFields : LexFields) (terms : List (String × Term)) :
    List (String × Term) :=
  ctx.flatMap (fun cm =>
    lexFields.flatMap (fun pd =>
      cm.2.flatMap (fun kd =>
        if strContains pd.1 kd.1 then
          pd.2.filterMap (fun df =>
            if cm.1 ∈ df.2 then
              (alookup terms kd.2).map (fun t => (cm.1, t))
            else none)
        else [])))

/-- `contextual_resolved`: the dict obtained by performing the writes of
the loop nest in order (a later write to the same field overwrites the
earlier one). -/
def resolveContextual (ctx : List (String × List (String × String)))
    (lexFields : LexFields) (terms : List (String × Term)) :
    List (String × Term) :=
  (ctxWrites ctx lexFields terms).foldl (fun acc w => aupdate acc w.1 w.2) []

/-- The body of the classification loop of `main` for a single field
name: `some t` when the field is mapped to `t`, `none` when it is added
to `unmapped`. -/
def classifyField (atproto : List String)
    (ctxResolved terms : List (String × Term))
    (manual : List (String × String)) (field : String) : Option Term :=
  if field ∈ atproto then none
  else match alookup ctxResolved field with
    | some t => some t
    | none =>
      match alookup terms field with
      | some t => some t
      | none =>
        match alookup manual field with
        | some target => alookup terms target
        | none => none

/-- The two accumulators of the classification loop. -/
structure Classification where
  mapped : List (String × Term)
  unmapped : List String
deriving DecidableEq, Repr

/-- The classification loop of `main`: each field of the (sorted,
duplicate-free) field list goes to `mapped` or to `unmapped`. -/
def classifyAll (atproto : List String)
    (ctxResolved terms : List (String × Term))
    (manual : List (String × String)) (fields : List String) :
    Classification :=
  fields.foldl (fun acc f =>
    match classifyField atproto ctxResolved terms manual f with
    | some t => { acc with mapped := acc.mapped ++ [(f, t)] }
    | none => { acc with unmapped := acc.unmapped ++ [f] }) ⟨[], []⟩

/-- The full output of a `dwc_crossref.py` run that the report prints:
the classification, the unimplemented relevant terms, and the coverage
percentage of the summary. -/
structure Report where
  mapped : List (String × Term)
  unmapped : List String
  unimplemented : List (String × Term)
  pct : ℚ
deriving DecidableEq, Repr

/-- The resolution pipeline of `main` in `dwc_crossref.py`, with the
module-level rule tables and the relevant-class set passed explicitly:
build the flattened field set, resolve the contextual rules, classify
every field, collect the unimplemented terms of the relevant classes,
and compute the summary coverage percentage
(`len(mapped) / total_relevant * 100`, `0` when `total_relevant` is 0). -/
def crossref (rules : Rules) (lexFields : LexFields)
    (terms : List (String × Term)) (relevantClasses : List String) :
    Report :=
  let allFields := build_field_set lexFields
  let ctxResolved := resolveContextual rules.contextual lexFields terms
  let cls := classifyAll rules.atproto ctxResolved terms rules.manual allFields
  let mappedNames := cls.mapped.map (fun p => p.2.name)
  let unimpl := terms.filter
    (fun p => relevantClasses.contains p.2.cls && !(mappedNames.contains p.1))
  let totalRelevant := cls.mapped.length + unimpl.length
  { mapped := cls.mapped
    unmapped := cls.unmapped
    unimplemented := unimpl
    pct := if totalRelevant = 0 then 0
           else (cls.mapped.length : ℚ) / (totalRelevant : ℚ) * 100 }

/-- The manual rename table `FIELD_TO_DWC` of `generate_dwc_html.py`
(it differs from the one in `dwc_crossref.py`). -/
def FIELD_TO_DWC_html : List (String × String) :=
  [("notes", "occurrenceRemarks"),
   ("comment", "identificationRemarks"),
   ("blobs", "associatedMedia"),
   ("recordedBy", "recordedBy")]

/-- `dwc_term_for_field` of `generate_dwc_html.py`:
`dwc_terms.get(FIELD_TO_DWC.get(field_name, field_name))`. The manual
rename table is consulted before any direct name lookup. -/
def dwc_term_for_field (field_name : String)
    (dwc_terms : List (String × Term)) : Option Term :=
  alookup dwc_terms (agetD FIELD_TO_DWC_html field_name field_name)

/-- Insertion into a list sorted on a string key. -/
def insertSortedOn {α : Type} (key : α → String) (x : α) : List α → List α
  | [] => [x]
  | y :: ys =>
    if strLe (key x) (key y) then x :: y :: ys else y :: insertSortedOn key x ys

/-- Sort on a string key: the model of `sorted(...)` with a key. -/
def sortOn {α : Type} (key : α → String) (l : List α) : List α :=
  l.foldr (insertSortedOn key) []

/-- One step of `by_class.setdefault(cls, []).append(x)`. -/
def appendGroup {α : Type} (acc : List (String × List α)) (cls : String)
    (x : α) : List (String × List α) :=
  match acc with
  | [] => [(cls, [x])]
  | (c, xs) :: rest =>
    if c = cls then (c, xs ++ [x]) :: rest else (c, xs) :: appendGroup rest cls x

/-- Group a list by a string key, groups in first-encounter order,
entries in list order: the `by_class` dicts of the report section. -/
def groupOn {α : Type} (cls : α → String) (l : List α) :
    List (String × List α) :=
  l.foldl (fun acc x => appendGroup acc (cls x) x) []

/-- The grouped layout of the printed report: mapped entries sorted by
field name then grouped by term class with the groups in sorted class
order, and unimplemented terms grouped by class with the groups in
sorted class order and each group sorted by term name. -/
def groupedReport (r : Report) :
    List (String × List (String × Term)) × List (String × List Term) :=
  (sortOn (fun g => g.1)
     (groupOn (fun p => p.2.cls) (sortOn (fun p => p.1) r.mapped)),
   sortOn (fun g => g.1)
     ((groupOn (fun t => t.cls) (r.unimplemented.map (fun p => p.2))).map
        (fun g => (g.1, sortOn (fun t => t.name) g.2))))

/-! ### Concrete inputs used by the scenario theorems -/

/-- A vocabulary term with the given name and semantic class (label
mirrors the name, definition empty), for concrete runs. -/
def mkT (n c : String) : Term := ⟨n, n, "", "iri:" ++ n, c⟩

/-- The vocabulary of the end-to-end scenario of the spec. -/
def termsC3 : List (String × Term) :=
  [("occurrenceID", mkT "occurrenceID" "Occurrence"),
   ("eventDate", mkT "eventDate" "Event"),
   ("scientificName", mkT "scientificName" "Taxon")]

/-- The schema fields of the end-to-end scenario: one file, one def. -/
def lexC3 : LexFields :=
  [("lexicons/x.json", [("main", ["occurrenceID", "eventDate", "notes"])])]

/-- The rules of the end-to-end scenario: empty infrastructure set, no
contextual rules, one manual rename whose target is absent. -/
def rulesC3 : Rules := ⟨[], [], [("notes", "occurrenceRemarks")]⟩

/-- Input exercising every precedence branch at once: an infrastructure
field that is also a term name, a contextual field, a direct match and a
manual rename. -/
def rulesPrec : Rules :=
  ⟨["subject"],
   [("createdAt", [("identification", "dateIdentified")])],
   [("notes", "occurrenceRemarks")]⟩

/-- One schema file whose path contains "identification". -/
def lexPrec : LexFields :=
  [("lexicons/identification.json",
    [("main", ["subject", "createdAt", "eventDate", "notes"])])]

/-- Vocabulary for the precedence run; "subject" is a term name even
though it is in the infrastructure set. -/
def termsPrec : List (String × Term) :=
  [("dateIdentified", mkT "dateIdentified" "Identification"),
   ("eventDate", mkT "eventDate" "Event"),
   ("occurrenceRemarks", mkT "occurrenceRemarks" "Occurrence"),
   ("subject", mkT "subject" "Record-level")]

/-- Two sources both defining "createdAt"; only the first path contains
the context key "identification". -/
def lexCtx : LexFields :=
  [("lexicons/identification.json", [("main", ["createdAt"])]),
   ("lexicons/occurrence.json", [("main", ["createdAt"])])]

/-- Vocabulary containing only the contextual target. -/
def termsCtx : List (String × Term) :=
  [("dateIdentified", mkT "dateIdentified" "Identification")]

/-- The contextual rule of `CONTEXTUAL_MAPPINGS` for "createdAt". -/
def rulesCtx : Rules :=
  ⟨[], [("createdAt", [("identification", "dateIdentified")])], []⟩

/-- A vocabulary whose single term is outside the relevant classes. -/
def termsOut : List (String × Term) := [("B", mkT "B" "Q")]

/-- A schema defining the field "B", which direct-matches that term. -/
def lexOut : LexFields := [("y.json", [("main", ["B"])])]

/-- A contextual table with two entries for the field "x". -/
def ctxOver : List (String × List (String × String)) :=
  [("x", [("a", "T1"), ("b", "T2")])]

/-- A single source whose path contains both context keys "a" and "b"
and which defines "x". -/
def lexOver : LexFields := [("src_a_b.json", [("main", ["x"])])]

/-- A vocabulary containing both contextual targets. -/
def termsOver : List (String × Term) :=
  [("T1", mkT "T1" "C"), ("T2", mkT "T2" "C")]

/-! ### Lemmas about the dict and set models -/

theorem alookup_mem {α : Type} {l : List (String × α)} {k : String} {v : α}
    (h : alookup l k = some v) : (k, v) ∈ l := by
  induction l with
  | nil => simp [alookup] at h
  | cons p rest ih =>
    rcases p with ⟨k', v'⟩
    rw [alookup] at h
    by_cases hk : k' = k
    · rw [if_pos hk] at h
      injection h with hv
      subst hk
      subst hv
      exact List.mem_cons_self _ _
    · rw [if_neg hk] at h
      exact List.mem_cons_of_mem _ (ih h)

theorem isSome_alookup {α : Type} {l : List (String × α)} {k : String} :
    (alookup l k).isSome = true ↔ ∃ v, (k, v) ∈ l := by
  induction l with
  | nil => simp [alookup]
  | cons p rest ih =>
    rcases p with ⟨k', v'⟩
    rw [alookup]
    by_cases hk : k' = k
    · subst hk
      simp
    · rw [if_neg hk]
      rw [ih]
      constructor
      · rintro ⟨v, hv⟩
        exact ⟨v, List.mem_cons_of_mem _ hv⟩
      · rintro ⟨v, hv⟩
        rcases List.mem_cons.mp hv with h | h
        · cases h; exact absurd rfl hk
        · exact ⟨v, h⟩

theorem alookup_of_mem_of_nodupKeys {α : Type} {l : List (String × α)}
    {k : String} {v : α}
    (hnd : l.Pairwise (fun a b => a.1 ≠ b.1)) (hm : (k, v) ∈ l) :
    alookup l k = some v := by
  induction l with
  | nil => cases hm
  | cons p rest ih =>
    rcases p with ⟨k', v'⟩
    rcases List.mem_cons.mp hm with h | h
    · cases h
      simp [alookup]
    · rw [alookup]
      have hne : k' ≠ k := by
        intro he
        subst he
        exact (List.pairwise_cons.mp hnd).1 (k', v) h rfl
      rw [if_neg hne]
      exact ih (List.pairwise_cons.mp hnd).2 h

theorem alookup_aupdate {α : Type} (l : List (String × α)) (k k' : String)
    (v : α) :
    alookup (aupdate l k v) k' = if k = k' then some v else alookup l k' := by
  induction l with
  | nil =>
    by_cases h : k = k' <;> simp [aupdate, alookup, h]
  | cons p rest ih =>
    rcases p with ⟨k0, v0⟩
    rw [aupdate]
    by_cases h0 : k0 = k
    · subst h0
      rw [if_pos rfl, alookup, alookup]
      by_cases h1 : k0 = k' <;> simp [h1]
    · rw [if_neg h0, alookup, alookup]
      by_cases h1 : k0 = k'
      · subst h1
        have : ¬ k = k0 := fun he => h0 he.symm
        simp [this]
      · rw [if_neg h1, if_neg h1, ih]

theorem alookup_foldl_aupdate_isSome {α : Type} (ws : List (String × α))
    (init : List (String × α)) (k : String) :
    (alookup (ws.foldl (fun acc w => aupdate acc w.1 w.2) init) k).isSome = true
      ↔ (∃ w ∈ ws, w.1 = k) ∨ (alookup init k).isSome = true := by
  induction ws generalizing init with
  | nil => simp
  | cons w ws ih =>
    rw [List.foldl_cons, ih]
    rw [alookup_aupdate]
    by_cases h : w.1 = k
    · simp [h]
    · simp only [if_neg h]
      constructor
      · rintro (⟨w', hw', he⟩ | hs)
        · exact Or.inl ⟨w', List.mem_cons_of_mem _ hw', he⟩
        · exact Or.inr hs
      · rintro (⟨w', hw', he⟩ | hs)
        · rcases List.mem_cons.mp hw' with h' | h'
          · subst h'; exact absurd he h
          · exact Or.inl ⟨w', h', he⟩
        · exact Or.inr hs

theorem alookup_foldl_aupdate_mem {α : Type} {ws : List (String × α)}
    {init : List (String × α)} {k : String} {v : α}
    (h : alookup (ws.foldl (fun acc w => aupdate acc w.1 w.2) init) k = some v) :
    (k, v) ∈ ws ∨ alookup init k = some v := by
  induction ws generalizing init with
  | nil => exact Or.inr h
  | cons w ws ih =>
    rw [List.foldl_cons] at h
    rcases ih h with hm | hl
    · exact Or.inl (List.mem_cons_of_mem _ hm)
    · rw [alookup_aupdate] at hl
      by_cases he : w.1 = k
      · rw [if_pos he] at hl
        cases hl
        left
        rcases w with ⟨kw, vw⟩
        simp only at he
        subst he
        exact List.mem_cons_self _ _
      · rw [if_neg he] at hl
        exact Or.inr hl

theorem mem_insertSorted {s a : String} {l : List String} :
    a ∈ insertSorted s l ↔ a = s ∨ a ∈ l := by
  induction l with
  | nil => simp [insertSorted]
  | cons t ts ih =>
    rw [insertSorted]
    by_cases h : strLe s t = true
    · simp [h]
    · simp only [if_neg h, List.mem_cons, ih]
      tauto

theorem mem_sortFields {a : String} {l : List String} :
    a ∈ sortFields l ↔ a ∈ l := by
  induction l with
  | nil => simp [sortFields]
  | cons t ts ih =>
    rw [sortFields, List.foldr_cons]
    rw [show ts.foldr insertSorted [] = sortFields ts from rfl] at *
    rw [mem_insertSorted, ih, List.mem_cons]

theorem mem_build_field_set {f : String} {lexFields : LexFields} :
    f ∈ build_field_set lexFields
      ↔ ∃ pd ∈ lexFields, ∃ df ∈ pd.2, f ∈ df.2 := by
  rw [build_field_set, mem_sortFields, List.mem_dedup, collectFields]
  simp [List.mem_flatMap]

/-! ### The classification loop as a filter of the field list -/

theorem classifyAll_foldl (atproto : List String)
    (ctxResolved terms : List (String × Term))
    (manual : List (String × String)) (fields : List String)
    (acc : Classification) :
    fields.foldl (fun acc f =>
      match classifyField atproto ctxResolved terms manual f with
      | some t => { acc with mapped := acc.mapped ++ [(f, t)] }
      | none => { acc with unmapped := acc.unmapped ++ [f] }) acc
    = ⟨acc.mapped ++ fields.filterMap (fun f =>
          (classifyField atproto ctxResolved terms manual f).map
            (fun t => (f, t))),
       acc.unmapped ++ fields.filter (fun f =>
          (classifyField atproto ctxResolved terms manual f).isNone)⟩ := by
  induction fields generalizing acc with
  | nil => simp
  | cons f fs ih =>
    rw [List.foldl_cons]
    cases h : classifyField atproto ctxResolved terms manual f with
    | some t =>
      simp only [h]
      rw [ih]
      simp [List.filterMap_cons, List.filter_cons, h]
    | none =>
      simp only [h]
      rw [ih]
      simp [List.filterMap_cons, List.filter_cons, h]

theorem classifyAll_eq (atproto : List String)
    (ctxResolved terms : List (String × Term))
    (manual : List (String × String)) (fields : List String) :
    classifyAll atproto ctxResolved terms manual fields
    = ⟨fields.filterMap (fun f =>
          (classifyField atproto ctxResolved terms manual f).map
            (fun t => (f, t))),
       fields.filter (fun f =>
          (classifyField atproto ctxResolved terms manual f).isNone)⟩ := by
  rw [classifyAll, classifyAll_foldl]
  simp

theorem mem_classifyAll_mapped {atproto : List String}
    {ctxResolved terms : List (String × Term)}
    {manual : List (String × String)} {fields : List String}
    {f : String} {t : Term} :
    (f, t) ∈ (classifyAll atproto ctxResolved terms manual fields).mapped
      ↔ f ∈ fields ∧ classifyField atproto ctxResolved terms manual f = some t := by
  rw [classifyAll_eq]
  simp only [List.mem_filterMap]
  constructor
  · rintro ⟨f', hf', hmap⟩
    cases h : classifyField atproto ctxResolved terms manual f' with
    | some t' =>
      rw [h] at hmap
      simp only [Option.map_some'] at hmap
      cases hmap
      exact ⟨hf', h⟩
    | none => rw [h] at hmap; simp at hmap
  · rintro ⟨hf, h⟩
    exact ⟨f, hf, by rw [h]; rfl⟩

theorem mem_classifyAll_unmapped {atproto : List String}
    {ctxResolved terms : List (String × Term)}
    {manual : List (String × String)} {fields : List String} {f : String} :
    f ∈ (classifyAll atproto ctxResolved terms manual fields).unmapped
      ↔ f ∈ fields ∧ classifyField atproto ctxResolved terms manual f = none := by
  rw [classifyAll_eq]
  simp [List.mem_filter, Option.isNone_iff_eq_none]

/-! ### Case lemmas for a single field -/

theorem classifyField_infra {atproto : List String}
    {ctxResolved terms : List (String × Term)}
    {manual : List (String × String)} {f : String} (h : f ∈ atproto) :
    classifyField atproto ctxResolved terms manual f = none := by
  rw [classifyField, if_pos h]

theorem classifyField_ctx {atproto : List String}
    {ctxResolved terms : List (String × Term)}
    {manual : List (String × String)} {f : String} {t : Term}
    (h : f ∉ atproto) (hc : alookup ctxResolved f = some t) :
    classifyField atproto ctxResolved terms manual f = some t := by
  rw [classifyField, if_neg h, hc]

theorem classifyField_direct {atproto : List String}
    {ctxResolved terms : List (String × Term)}
    {manual : List (String × String)} {f : String} {t : Term}
    (h : f ∉ atproto) (hc : alookup ctxResolved f = none)
    (hd : alookup terms f = some t) :
    classifyField atproto ctxResolved terms manual f = some t := by
  rw [classifyField, if_neg h, hc, hd]

theorem classifyField_manual {atproto : List String}
    {ctxResolved terms : List (String × Term)}
    {manual : List (String × String)} {f target : String}
    (h : f ∉ atproto) (hc : alookup ctxResolved f = none)
    (hd : alookup terms f = none) (hm : alookup manual f = some target) :
    classifyField atproto ctxResolved terms manual f = alookup terms target := by
  rw [classifyField, if_neg h, hc, hd, hm]

theorem classifyField_fallthrough {atproto : List String}
    {ctxResolved terms : List (String × Term)}
    {manual : List (String × String)} {f : String}
    (h : f ∉ atproto) (hc : alookup ctxResolved f = none)
    (hd : alookup terms f = none) (hm : alookup manual f = none) :
    classifyField atproto ctxResolved terms manual f = none := by
  rw [classifyField, if_neg h, hc, hd, hm]

/-! ### The contextual-resolution loop -/

theorem mem_ctxWrites {ctx : List (String × List (String × String))}
    {lexFields : LexFields} {terms : List (String × Term)}
    {f : String} {t : Term} :
    (f, t) ∈ ctxWrites ctx lexFields terms
      ↔ ∃ cm ∈ ctx, cm.1 = f ∧ ∃ pd ∈ lexFields, ∃ kd ∈ cm.2,
          strContains pd.1 kd.1 = true ∧ (∃ df ∈ pd.2, f ∈ df.2) ∧
          alookup terms kd.2 = some t := by
  rw [ctxWrites]
  simp only [List.mem_flatMap]
  constructor
  · rintro ⟨cm, hcm, pd, hpd, kd, hkd, hmem⟩
    by_cases hc : strContains pd.1 kd.1 = true
    · rw [if_pos hc] at hmem
      rcases List.mem_filterMap.mp hmem with ⟨df, hdf, hg⟩
      by_cases hfd : cm.1 ∈ df.2
      · rw [if_pos hfd] at hg
        rcases Option.map_eq_some'.mp hg with ⟨t', ht', he⟩
        have hf : cm.1 = f := congrArg Prod.fst he
        have ht : t' = t := congrArg Prod.snd he
        subst ht
        exact ⟨cm, hcm, hf, pd, hpd, kd, hkd, hc,
          ⟨df, hdf, hf ▸ hfd⟩, ht'⟩
      · rw [if_neg hfd] at hg
        cases hg
    · rw [if_neg hc] at hmem
      cases hmem
  · rintro ⟨cm, hcm, hf, pd, hpd, kd, hkd, hc, ⟨df, hdf, hfd⟩, ht⟩
    refine ⟨cm, hcm, pd, hpd, kd, hkd, ?_⟩
    rw [if_pos hc]
    refine List.mem_filterMap.mpr ⟨df, hdf, ?_⟩
    rw [if_pos (hf ▸ hfd), ht]
    simp [hf]

theorem resolveContextual_isSome {ctx : List (String × List (String × String))}
    {lexFields : LexFields} {terms : List (String × Term)} {f : String} :
    (alookup (resolveContextual ctx lexFields terms) f).isSome = true
      ↔ ∃ cm ∈ ctx, cm.1 = f ∧ ∃ pd ∈ lexFields, ∃ kd ∈ cm.2,
          strContains pd.1 kd.1 = true ∧ (∃ df ∈ pd.2, f ∈ df.2) ∧
          (alookup terms kd.2).isSome = true := by
  rw [resolveContextual, alookup_foldl_aupdate_isSome]
  have hinit : (alookup ([] : List (String × Term)) f).isSome = false := rfl
  rw [hinit]
  simp only [Bool.false_eq_true, or_false]
  constructor
  · rintro ⟨w, hw, he⟩
    rcases w with ⟨f', t⟩
    simp only at he
    subst he
    rcases mem_ctxWrites.mp hw with
      ⟨cm, hcm, hf, pd, hpd, kd, hkd, hc, hdf, ht⟩
    exact ⟨cm, hcm, hf, pd, hpd, kd, hkd, hc, hdf, by rw [ht]; rfl⟩
  · rintro ⟨cm, hcm, hf, pd, hpd, kd, hkd, hc, hdf, ht⟩
    rcases Option.isSome_iff_exists.mp ht with ⟨t, ht'⟩
    exact ⟨(f, t), mem_ctxWrites.mpr
      ⟨cm, hcm, hf, pd, hpd, kd, hkd, hc, hdf, ht'⟩, rfl⟩

theorem resolveContextual_sound {ctx : List (String × List (String × String))}
    {lexFields : LexFields} {terms : List (String × Term)}
    {f : String} {t : Term}
    (h : alookup (resolveContextual ctx lexFields terms) f = some t) :
    ∃ cm ∈ ctx, cm.1 = f ∧ ∃ pd ∈ lexFields, ∃ kd ∈ cm.2,
      strContains pd.1 kd.1 = true ∧ (∃ df ∈ pd.2, f ∈ df.2) ∧
      alookup terms kd.2 = some t := by
  rw [resolveContextual] at h
  rcases alookup_foldl_aupdate_mem h with hm | hl
  · exact mem_ctxWrites.mp hm
  · cases hl

/-! ### Projections of the pipeline output -/

theorem crossref_mapped (rules : Rules) (lexFields : LexFields)
    (terms : List (String × Term)) (rc : List String) :
    (crossref rules lexFields terms rc).mapped
      = (classifyAll rules.atproto
          (resolveContextual rules.contextual lexFields terms)
          terms rules.manual (build_field_set lexFields)).mapped := rfl

theorem crossref_unmapped (rules : Rules) (lexFields : LexFields)
    (terms : List (String × Term)) (rc : List String) :
    (crossref rules lexFields terms rc).unmapped
      = (classifyAll rules.atproto
          (resolveContextual rules.contextual lexFields terms)
          terms rules.manual (build_field_set lexFields)).unmapped := rfl

theorem crossref_unimplemented (rules : Rules) (lexFields : LexFields)
    (terms : List (String × Term)) (rc : List String) :
    (crossref rules lexFields terms rc).unimplemented
      = terms.filter (fun p => rc.contains p.2.cls &&
          !(((crossref rules lexFields terms rc).mapped.map
              (fun p => p.2.name)).contains p.1)) := rfl

theorem crossref_pct (rules : Rules) (lexFields : LexFields)
    (terms : List (String × Term)) (rc : List String) :
    (crossref rules lexFields terms rc).pct
      = (if (crossref rules lexFields terms rc).mapped.length
             + (crossref rules lexFields terms rc).unimplemented.length = 0
         then 0
         else ((crossref rules lexFields terms rc).mapped.length : ℚ)
              / ((((crossref rules lexFields terms rc).mapped.length
                   + (crossref rules lexFields terms rc).unimplemented.length : ℕ)) : ℚ)
              * 100) := rfl

theorem classifyField_some_source {atproto : List String}
    {ctxResolved terms : List (String × Term)}
    {manual : List (String × String)} {f : String} {t : Term}
    (h : classifyField atproto ctxResolved terms manual f = some t) :
    alookup ctxResolved f = some t ∨ alookup terms f = some t ∨
      ∃ g, alookup manual f = some g ∧ alookup terms g = some t := by
  rw [classifyField] at h
  by_cases ha : f ∈ atproto
  · rw [if_pos ha] at h
    cases h
  · rw [if_neg ha] at h
    cases hc : alookup ctxResolved f with
    | some t' =>
      rw [hc] at h
      injection h with he
      subst he
      exact Or.inl rfl
    | none =>
      rw [hc] at h
      cases hd : alookup terms f with
      | some t' =>
        rw [hd] at h
        injection h with he
        subst he
        exact Or.inr (Or.inl rfl)
      | none =>
        rw [hd] at h
        cases hm : alookup manual f with
        | some g =>
          rw [hm] at h
          exact Or.inr (Or.inr ⟨g, rfl, h⟩)
        | none =>
          rw [hm] at h
          cases h

/-! ### Claim theorems -/

/-- C1 (amended): in `dwc_crossref.py` the claimed precedence holds —
a field in the infrastructure set is unmapped even when other rules
match, a pending contextual resolution beats a direct name match, and a
direct name match beats the manual rename table; but in
`generate_dwc_html.py`, `dwc_term_for_field` consults the manual rename
table before the direct name lookup, so there a manual rename shadows a
direct name match. -/
theorem C1_precedence (rules : Rules) (lexFields : LexFields)
    (terms : List (String × Term)) (rc : List String) (f target : String)
    (t : Term) :
    (f ∈ build_field_set lexFields → f ∈ rules.atproto →
      f ∈ (crossref rules lexFields terms rc).unmapped) ∧
    (f ∈ build_field_set lexFields → f ∉ rules.atproto →
      alookup (resolveContextual rules.contextual lexFields terms) f = some t →
      (f, t) ∈ (crossref rules lexFields terms rc).mapped) ∧
    (f ∈ build_field_set lexFields → f ∉ rules.atproto →
      alookup (resolveContextual rules.contextual lexFields terms) f = none →
      alookup terms f = some t →
      (f, t) ∈ (crossref rules lexFields terms rc).mapped) ∧
    (f ∈ build_field_set lexFields → f ∉ rules.atproto →
      alookup (resolveContextual rules.contextual lexFields terms) f = none →
      alookup terms f = none → alookup rules.manual f = some target →
      alookup terms target = some t →
      (f, t) ∈ (crossref rules lexFields terms rc).mapped) ∧
    (alookup FIELD_TO_DWC_html f = some target →
      dwc_term_for_field f terms = alookup terms target) := by
  refine ⟨?_, ?_, ?_, ?_, ?_⟩
  · intro hf ha
    rw [crossref_unmapped]
    exact mem_classifyAll_unmapped.mpr ⟨hf, classifyField_infra ha⟩
  · intro hf ha hc
    rw [crossref_mapped]
    exact mem_classifyAll_mapped.mpr ⟨hf, classifyField_ctx ha hc⟩
  · intro hf ha hc hd
    rw [crossref_mapped]
    exact mem_classifyAll_mapped.mpr ⟨hf, classifyField_direct ha hc hd⟩
  · intro hf ha hc hd hm ht
    rw [crossref_mapped]
    refine mem_classifyAll_mapped.mpr ⟨hf, ?_⟩
    rw [classifyField_manual ha hc hd hm, ht]
  · intro hm
    rw [dwc_term_for_field, agetD, hm]

/-- Witness for C1: a run exercising each branch — the infrastructure
field "subject" stays unmapped although it is a term name, "createdAt"
maps contextually, "eventDate" maps directly, "notes" maps manually,
and `dwc_term_for_field` resolves "notes" through the rename table. -/
theorem C1_precedence_witness :
    "subject" ∈ (crossref rulesPrec lexPrec termsPrec ["Identification"]).unmapped ∧
    ("createdAt", mkT "dateIdentified" "Identification")
      ∈ (crossref rulesPrec lexPrec termsPrec ["Identification"]).mapped ∧
    ("eventDate", mkT "eventDate" "Event")
      ∈ (crossref rulesPrec lexPrec termsPrec ["Identification"]).mapped ∧
    ("notes", mkT "occurrenceRemarks" "Occurrence")
      ∈ (crossref rulesPrec lexPrec termsPrec ["Identification"]).mapped ∧
    dwc_term_for_field "notes" termsPrec = alookup termsPrec "occurrenceRemarks" :=
  ⟨(C1_precedence rulesPrec lexPrec termsPrec ["Identification"] "subject"
      "" (mkT "" "")).1 (by decide) (by decide),
   (C1_precedence rulesPrec lexPrec termsPrec ["Identification"] "createdAt"
      "" (mkT "dateIdentified" "Identification")).2.1 (by decide) (by decide)
      (by decide),
   (C1_precedence rulesPrec lexPrec termsPrec ["Identification"] "eventDate"
      "" (mkT "eventDate" "Event")).2.2.1 (by decide) (by decide) (by decide)
      (by decide),
   (C1_precedence rulesPrec lexPrec termsPrec ["Identification"] "notes"
      "occurrenceRemarks" (mkT "occurrenceRemarks" "Occurrence")).2.2.2.1
      (by decide) (by decide) (by decide) (by decide) (by decide) (by decide),
   (C1_precedence rulesPrec lexPrec termsPrec ["Identification"] "notes"
      "occurrenceRemarks" (mkT "occurrenceRemarks" "Occurrence")).2.2.2.2
      (by decide)⟩

/-- C1 is false as stated for `dwc_term_for_field` of
`generate_dwc_html.py`: with a vocabulary in which "notes" is itself a
term name but the rename target "occurrenceRemarks" is not, a direct
name match exists yet the function returns no term — the manual rename
table was consulted before the direct name match. -/
theorem C1_counterexample :
    alookup [("notes", mkT "notes" "Occurrence")] "notes"
        = some (mkT "notes" "Occurrence") ∧
    dwc_term_for_field "notes" [("notes", mkT "notes" "Occurrence")] = none := by
  decide

/-- C2: every field name of the flattened field set appears in exactly
one of mapped and unmapped — for a name of the field set, having a
mapped entry and being unmapped are mutually exclusive and jointly
exhaustive, and names outside the field set appear in neither. -/
theorem C2_partition (rules : Rules) (lexFields : LexFields)
    (terms : List (String × Term)) (rc : List String) (f : String) :
    (f ∈ build_field_set lexFields →
      ((∃ t, (f, t) ∈ (crossref rules lexFields terms rc).mapped)
        ↔ f ∉ (crossref rules lexFields terms rc).unmapped)) ∧
    ((∃ t, (f, t) ∈ (crossref rules lexFields terms rc).mapped)
        ∨ f ∈ (crossref rules lexFields terms rc).unmapped
      → f ∈ build_field_set lexFields) := by
  rw [crossref_mapped, crossref_unmapped]
  constructor
  · intro hf
    constructor
    · rintro ⟨t, ht⟩ hun
      rcases mem_classifyAll_mapped.mp ht with ⟨-, hsome⟩
      rcases mem_classifyAll_unmapped.mp hun with ⟨-, hnone⟩
      rw [hsome] at hnone
      cases hnone
    · intro hun
      cases h : classifyField rules.atproto
          (resolveContextual rules.contextual lexFields terms) terms
          rules.manual f with
      | some t => exact ⟨t, mem_classifyAll_mapped.mpr ⟨hf, h⟩⟩
      | none => exact absurd (mem_classifyAll_unmapped.mpr ⟨hf, h⟩) hun
  · rintro (⟨t, ht⟩ | hun)
    · exact (mem_classifyAll_mapped.mp ht).1
    · exact (mem_classifyAll_unmapped.mp hun).1

/-- Witness for C2 at the end-to-end scenario: "occurrenceID" is in the
field set, so it is mapped exactly when it is not unmapped. -/
theorem C2_partition_witness :
    (∃ t, ("occurrenceID", t)
        ∈ (crossref rulesC3 lexC3 termsC3 ["Occurrence", "Event", "Taxon"]).mapped)
      ↔ "occurrenceID"
        ∉ (crossref rulesC3 lexC3 termsC3 ["Occurrence", "Event", "Taxon"]).unmapped :=
  (C2_partition rulesC3 lexC3 termsC3 ["Occurrence", "Event", "Taxon"]
    "occurrenceID").1 (by decide)

/-- C3: the end-to-end scenario — occurrenceID and eventDate map
directly, notes falls through (its rename target is absent),
scientificName is the only unimplemented relevant term, and the
reported coverage is 2/3 as a percentage. -/
theorem C3_end_to_end :
    (crossref rulesC3 lexC3 termsC3 ["Occurrence", "Event", "Taxon"]).mapped
        = [("eventDate", mkT "eventDate" "Event"),
           ("occurrenceID", mkT "occurrenceID" "Occurrence")] ∧
    (crossref rulesC3 lexC3 termsC3 ["Occurrence", "Event", "Taxon"]).unmapped
        = ["notes"] ∧
    (crossref rulesC3 lexC3 termsC3 ["Occurrence", "Event", "Taxon"]).unimplemented
        = [("scientificName", mkT "scientificName" "Taxon")] ∧
    (crossref rulesC3 lexC3 termsC3 ["Occurrence", "Event", "Taxon"]).pct
        = 2 / 3 * 100 := by
  refine ⟨by decide, by decide, by decide, ?_⟩
  have h : (crossref rulesC3 lexC3 termsC3 ["Occurrence", "Event", "Taxon"]).pct
      = ((2 : ℕ) : ℚ) / ((3 : ℕ) : ℚ) * 100 := rfl
  rw [h]
  norm_num

/-- C4 (amended): a pending contextual resolution for a field exists
exactly when some contextual rule for it matches — a loaded source whose
path contains the context key defines a group containing the field, and
the target term name exists in the vocabulary; the recorded term always
comes from such a matching rule, but when several rules match, the one
recorded is the last matching write of the loop, so a matching rule
term need not be the one recorded; a field with a pending resolution
that is not in the infrastructure set is then mapped to the recorded
term even with no direct-name or manual rule. -/
theorem C4_contextual (rules : Rules) (lexFields : LexFields)
    (terms : List (String × Term)) (rc : List String) (f : String)
    (t : Term) :
    ((alookup (resolveContextual rules.contextual lexFields terms) f).isSome = true
      ↔ ∃ cm ∈ rules.contextual, cm.1 = f ∧ ∃ pd ∈ lexFields, ∃ kd ∈ cm.2,
          strContains pd.1 kd.1 = true ∧ (∃ df ∈ pd.2, f ∈ df.2) ∧
          (alookup terms kd.2).isSome = true) ∧
    (alookup (resolveContextual rules.contextual lexFields terms) f = some t →
      ∃ cm ∈ rules.contextual, cm.1 = f ∧ ∃ pd ∈ lexFields, ∃ kd ∈ cm.2,
        strContains pd.1 kd.1 = true ∧ (∃ df ∈ pd.2, f ∈ df.2) ∧
        alookup terms kd.2 = some t) ∧
    (alookup (resolveContextual rules.contextual lexFields terms) f = some t →
      f ∉ rules.atproto → f ∈ build_field_set lexFields →
      (f, t) ∈ (crossref rules lexFields terms rc).mapped) := by
  refine ⟨resolveContextual_isSome, fun h => resolveContextual_sound h, ?_⟩
  intro h ha hf
  rw [crossref_mapped]
  exact mem_classifyAll_mapped.mpr ⟨hf, classifyField_ctx ha h⟩

/-- Witness for C4: the spec's contextual-override example — the field
"createdAt", defined by a source whose path contains "identification",
is mapped to the term "dateIdentified" with no direct or manual rule. -/
theorem C4_contextual_witness :
    ("createdAt", mkT "dateIdentified" "Identification")
      ∈ (crossref rulesCtx lexCtx termsCtx ["Identification"]).mapped :=
  (C4_contextual rulesCtx lexCtx termsCtx ["Identification"] "createdAt"
    (mkT "dateIdentified" "Identification")).2.2 (by decide) (by decide)
    (by decide)

/-- C4 is false as stated: the contextual entries ("a", "T1") and
("b", "T2") for the field "x" both match the single source (its path
contains both keys, its group defines "x", and both term names exist),
so the claim's condition holds for a resolution of "x" to "T1" — yet
the recorded resolution is to "T2": the later matching write overwrote
the earlier one. -/
theorem C4_counterexample :
    ("src_a_b.json", [("main", ["x"])]) ∈ lexOver ∧
    strContains "src_a_b.json" "a" = true ∧
    (alookup termsOver "T1").isSome = true ∧
    alookup (resolveContextual ctxOver lexOver termsOver) "x"
        = some (mkT "T2" "C") ∧
    mkT "T2" "C" ≠ mkT "T1" "C" := by
  decide

/-- C5: a vocabulary entry (with its name as key, the loader invariant)
is in the unimplemented output iff its semantic class is in the
relevant set and its name is not among the mapped target names; in
particular a term of a class outside the relevant set is never
unimplemented. -/
theorem C5_unimplemented (rules : Rules) (lexFields : LexFields)
    (terms : List (String × Term)) (rc : List String) (n : String) (t : Term)
    (hm : (n, t) ∈ terms) (hname : t.name = n) :
    ((n, t) ∈ (crossref rules lexFields terms rc).unimplemented
      ↔ t.cls ∈ rc ∧
        t.name ∉ (crossref rules lexFields terms rc).mapped.map
          (fun p => p.2.name)) := by
  rw [crossref_unimplemented, List.mem_filter, hname]
  simp only [Bool.and_eq_true, Bool.not_eq_true']
  constructor
  · rintro ⟨-, hcls, hnot⟩
    refine ⟨List.elem_iff.mp hcls, fun hmem => ?_⟩
    have hc : (List.map (fun p => p.2.name)
        (crossref rules lexFields terms rc).mapped).contains n = true :=
      List.elem_iff.mpr hmem
    rw [hc] at hnot
    cases hnot
  · rintro ⟨hcls, hnot⟩
    refine ⟨hm, List.elem_iff.mpr hcls, ?_⟩
    cases hc : (List.map (fun p => p.2.name)
        (crossref rules lexFields terms rc).mapped).contains n
    · rfl
    · exact absurd (List.elem_iff.mp hc) hnot

/-- Witness for C5 at the end-to-end scenario: "scientificName" (class
Taxon, relevant, no mapped field) is unimplemented. -/
theorem C5_unimplemented_witness :
    ("scientificName", mkT "scientificName" "Taxon")
      ∈ (crossref rulesC3 lexC3 termsC3 ["Occurrence", "Event", "Taxon"]).unimplemented :=
  (C5_unimplemented rulesC3 lexC3 termsC3 ["Occurrence", "Event", "Taxon"]
    "scientificName" (mkT "scientificName" "Taxon") (by decide) (by decide)).mpr
    ⟨by decide, by decide⟩

/-- C6 (amended): the reported coverage equals
mapped_count / (mapped_count + unimplemented_count), as a percentage,
with value 0 when the denominator is 0, where mapped_count counts
mapped schema fields (not relevant-class terms); with no mapped fields
the value is 0. Because mapped_count counts fields and can include
fields mapped to terms outside the relevant classes, the value is not
in general the fraction of relevant-class terms that have a mapped
field, and zero relevant terms does not force a 0 (see the
counterexample). -/
theorem C6_coverage (rules : Rules) (lexFields : LexFields)
    (terms : List (String × Term)) (rc : List String) :
    ((crossref rules lexFields terms rc).pct
      = (if (crossref rules lexFields terms rc).mapped.length
             + (crossref rules lexFields terms rc).unimplemented.length = 0
         then 0
         else ((crossref rules lexFields terms rc).mapped.length : ℚ)
              / ((((crossref rules lexFields terms rc).mapped.length
                   + (crossref rules lexFields terms rc).unimplemented.length : ℕ)) : ℚ)
              * 100)) ∧
    ((crossref rules lexFields terms rc).mapped = [] →
      (crossref rules lexFields terms rc).pct = 0) := by
  refine ⟨crossref_pct rules lexFields terms rc, ?_⟩
  intro h
  rw [crossref_pct, h]
  simp

/-- Witness for C6: a run with no schema fields and no relevant terms
reports coverage 0 rather than a division error. -/
theorem C6_coverage_witness :
    (crossref ⟨[], [], []⟩ [] [] []).pct = 0 :=
  (C6_coverage ⟨[], [], []⟩ [] [] []).2 (by decide)

/-- C6 is false in its boundary and fraction readings: the vocabulary
has a single term "B" of class "Q", outside the relevant classes ["R"],
so there are zero relevant-class terms — yet the schema field "B" maps
to it directly and the reported coverage is 100, not 0, and certainly
not the fraction of relevant-class terms with a mapped field. -/
theorem C6_counterexample :
    termsOut.filter (fun p => (["R"] : List String).contains p.2.cls) = [] ∧
    (crossref ⟨[], [], []⟩ lexOut termsOut ["R"]).pct = 100 := by
  refine ⟨by decide, ?_⟩
  have h : (crossref ⟨[], [], []⟩ lexOut termsOut ["R"]).pct
      = ((1 : ℕ) : ℚ) / ((1 : ℕ) : ℚ) * 100 := rfl
  rw [h]
  norm_num

/-- C7 (amended): same-named fields from different sources are not
distinct in classification: the flattened field set merges names across
sources, and a contextual resolution — obtained by matching any one
source — applies to the field name globally: the name is mapped to the
contextual term and is absent from unmapped, so no occurrence of the
name, from any source, is classified independently of the rule. -/
theorem C7_global_name (rules : Rules) (lexFields : LexFields)
    (terms : List (String × Term)) (rc : List String) (f : String)
    (t : Term) :
    (∀ g : String, g ∈ build_field_set lexFields
        ↔ ∃ pd ∈ lexFields, ∃ df ∈ pd.2, g ∈ df.2) ∧
    (alookup (resolveContextual rules.contextual lexFields terms) f = some t →
      f ∉ rules.atproto → f ∈ build_field_set lexFields →
      (f, t) ∈ (crossref rules lexFields terms rc).mapped ∧
        f ∉ (crossref rules lexFields terms rc).unmapped) := by
  refine ⟨fun g => mem_build_field_set, ?_⟩
  intro hc ha hf
  constructor
  · rw [crossref_mapped]
    exact mem_classifyAll_mapped.mpr ⟨hf, classifyField_ctx ha hc⟩
  · rw [crossref_unmapped]
    intro hun
    rcases mem_classifyAll_unmapped.mp hun with ⟨-, hnone⟩
    rw [classifyField_ctx ha hc] at hnone
    cases hnone

/-- Witness for C7: with both sources defining "createdAt" and the rule
matching only the identification source, the name is mapped to the
contextual term and not unmapped. -/
theorem C7_global_name_witness :
    ("createdAt", mkT "dateIdentified" "Identification")
      ∈ (crossref rulesCtx lexCtx termsCtx ["Identification"]).mapped ∧
    "createdAt" ∉ (crossref rulesCtx lexCtx termsCtx ["Identification"]).unmapped :=
  (C7_global_name rulesCtx lexCtx termsCtx ["Identification"] "createdAt"
    (mkT "dateIdentified" "Identification")).2 (by decide) (by decide)
    (by decide)

/-- C7 is false as stated: two sources each define "createdAt"; the
contextual rule matches only the identification source, yet the run
produces a single classification for the name — mapped to the
contextual term, nothing unmapped. Without the rule, the same input
leaves "createdAt" unmapped, so the occurrence from the non-matching
occurrence source was not classified independently of the rule. -/
theorem C7_counterexample :
    build_field_set lexCtx = ["createdAt"] ∧
    (crossref rulesCtx lexCtx termsCtx ["Identification"]).mapped
        = [("createdAt", mkT "dateIdentified" "Identification")] ∧
    (crossref rulesCtx lexCtx termsCtx ["Identification"]).unmapped = [] ∧
    (crossref ⟨[], [], []⟩ lexCtx termsCtx ["Identification"]).unmapped
        = ["createdAt"] := by
  decide

/-- C8: classification is total — every field of the field set ends up
mapped or unmapped for arbitrary inputs (including empty ones), and a
field whose manual-rename target is absent from the vocabulary, with no
other rule matching, silently falls through to unmapped. -/
theorem C8_total (rules : Rules) (lexFields : LexFields)
    (terms : List (String × Term)) (rc : List String) (f g : String) :
    (f ∈ build_field_set lexFields →
      (∃ t, (f, t) ∈ (crossref rules lexFields terms rc).mapped) ∨
        f ∈ (crossref rules lexFields terms rc).unmapped) ∧
    (f ∈ build_field_set lexFields → f ∉ rules.atproto →
      alookup (resolveContextual rules.contextual lexFields terms) f = none →
      alookup terms f = none → alookup rules.manual f = some g →
      alookup terms g = none →
      f ∈ (crossref rules lexFields terms rc).unmapped) := by
  constructor
  · intro hf
    cases h : classifyField rules.atproto
        (resolveContextual rules.contextual lexFields terms) terms
        rules.manual f with
    | some t =>
      exact Or.inl ⟨t, by
        rw [crossref_mapped]
        exact mem_classifyAll_mapped.mpr ⟨hf, h⟩⟩
    | none =>
      refine Or.inr ?_
      rw [crossref_unmapped]
      exact mem_classifyAll_unmapped.mpr ⟨hf, h⟩
  · intro hf ha hc hd hm ht
    rw [crossref_unmapped]
    refine mem_classifyAll_unmapped.mpr ⟨hf, ?_⟩
    rw [classifyField_manual ha hc hd hm, ht]

/-- Witness for C8 at the end-to-end scenario: the manual-rename target
of "notes" is absent from the vocabulary, and "notes" is unmapped. -/
theorem C8_total_witness :
    "notes" ∈ (crossref rulesC3 lexC3 termsC3 ["Occurrence", "Event", "Taxon"]).unmapped :=
  (C8_total rulesC3 lexC3 termsC3 ["Occurrence", "Event", "Taxon"] "notes"
    "occurrenceRemarks").2 (by decide) (by decide) (by decide) (by decide)
    (by decide) (by decide)

/-- C9: classification is a deterministic function of its inputs: equal
rule tables, schema field sets, vocabularies and relevant-class sets
give equal reports and equal grouped report layouts. Absence of
mutation is inherent in this functional model of the code: the loop
builds fresh dicts and sets and only reads its inputs. -/
theorem C9_deterministic (r₁ r₂ : Rules) (lf₁ lf₂ : LexFields)
    (t₁ t₂ : List (String × Term)) (rc₁ rc₂ : List String)
    (hr : r₁ = r₂) (hl : lf₁ = lf₂) (ht : t₁ = t₂) (hc : rc₁ = rc₂) :
    crossref r₁ lf₁ t₁ rc₁ = crossref r₂ lf₂ t₂ rc₂ ∧
    groupedReport (crossref r₁ lf₁ t₁ rc₁)
      = groupedReport (crossref r₂ lf₂ t₂ rc₂) := by
  subst hr
  subst hl
  subst ht
  subst hc
  exact ⟨rfl, rfl⟩

/-- Witness for C9: two runs of the end-to-end scenario agree. -/
theorem C9_deterministic_witness :
    crossref rulesC3 lexC3 termsC3 ["Occurrence", "Event", "Taxon"]
      = crossref rulesC3 lexC3 termsC3 ["Occurrence", "Event", "Taxon"] ∧
    groupedReport (crossref rulesC3 lexC3 termsC3 ["Occurrence", "Event", "Taxon"])
      = groupedReport (crossref rulesC3 lexC3 termsC3 ["Occurrence", "Event", "Taxon"]) :=
  C9_deterministic rulesC3 rulesC3 lexC3 lexC3 termsC3 termsC3
    ["Occurrence", "Event", "Taxon"] ["Occurrence", "Event", "Taxon"]
    rfl rfl rfl rfl

/-- C10: classification never synthesizes a term: under the loader
invariant that each vocabulary entry's name equals its key, every term
appearing as a mapping target is an entry of the input vocabulary —
looking its name up in `terms` finds exactly it, whether the resolution
was contextual, direct or manual. -/
theorem C10_targets (rules : Rules) (lexFields : LexFields)
    (terms : List (String × Term)) (rc : List String) (f : String) (t : Term)
    (hwf : ∀ p ∈ terms, p.2.name = p.1)
    (hm : (f, t) ∈ (crossref rules lexFields terms rc).mapped) :
    alookup terms t.name = some t := by
  rw [crossref_mapped] at hm
  rcases mem_classifyAll_mapped.mp hm with ⟨-, hsome⟩
  have hkey : ∃ k, alookup terms k = some t := by
    rcases classifyField_some_source hsome with hctx | hdir | ⟨g, -, hg⟩
    · rcases resolveContextual_sound hctx with
        ⟨cm, -, -, pd, -, kd, -, -, -, ht⟩
      exact ⟨kd.2, ht⟩
    · exact ⟨f, hdir⟩
    · exact ⟨g, hg⟩
  rcases hkey with ⟨k, hk⟩
  have hmem := alookup_mem hk
  have hn : t.name = k := hwf (k, t) hmem
  rw [hn]
  exact hk

/-- Witness for C10 at the end-to-end scenario: the mapped target of
"eventDate" is the vocabulary entry "eventDate". -/
theorem C10_targets_witness :
    alookup termsC3 (mkT "eventDate" "Event").name
      = some (mkT "eventDate" "Event") :=
  C10_targets rulesC3 lexC3 termsC3 ["Occurrence", "Event", "Taxon"]
    "eventDate" (mkT "eventDate" "Event") (by decide) (by decide)
